import Mathlib

/-!
Shallow embedding of the branch-tree session engine (branchState.js,
branchEvents.js, branchPanel.js) of the `einstien` repository.

The in-memory object `branches` (a JS object keyed by branch id, insertion
ordered) is modelled as a `List Branch`; key lookup is `find?` on the id,
assignment replaces in place or appends, `delete` filters.  JS `undefined`
fields are modelled with `Option`.  Timestamps (`Date.now()`) and generated
branch ids (`generateBranchId`) are passed in as explicit parameters.
Asynchronous IndexedDB persistence is a logged, best-effort side channel in
the source (the in-memory map stays authoritative), so it is not modelled.
-/

namespace BBrowser

/-- One navigation-history record: `{url, title, timestamp}`. -/
structure Entry where
  url : String
  title : String
  timestamp : Nat
deriving DecidableEq

/-- A branch node, mirroring the objects stored in `branches`.
`history`/`historyIndex` are `Option` because the ROOT object built by
`ensureRoot` carries neither field (JS `undefined`). -/
structure Branch where
  id : String
  tabId : Option Int
  parentId : Option String
  url : String
  title : String
  history : Option (List Entry)
  historyIndex : Option Int
  createdAt : Nat
  lastActiveAt : Nat
  state : String
  isRoot : Bool
deriving DecidableEq

/-- The in-memory store `branches`, in insertion order. -/
abbrev Store := List Branch

/-- Constant `ROOT_BRANCH_ID`, the fixed id of the ROOT branch. -/
def ROOT_BRANCH_ID : String := "br_root"

/-- Constant `ROOT_URL`, the blank url of the ROOT branch. -/
def ROOT_URL : String := ""

/-- Key read `branches[branchId] || null`. -/
def lookup (s : Store) (branchId : String) : Option Branch :=
  s.find? (fun b => b.id == branchId)

/-- Key write `branches[branchId] = nb` on a JS object: replace in place if the key
exists, otherwise append. -/
def insertB (s : Store) (nb : Branch) : Store :=
  if s.any (fun b => b.id == nb.id) then
    s.map (fun b => if b.id == nb.id then nb else b)
  else s ++ [nb]

/-- A partial update object passed to `update`; `none` means the key is
absent from the partial.  (`parentId` can also be set to `null`, hence the
nested option.) -/
structure UpdateData where
  tabId : Option Int := none
  parentId : Option (Option String) := none
  url : Option String := none
  title : Option String := none
  history : Option (List Entry) := none
  historyIndex : Option Int := none
  lastActiveAt : Option Nat := none

/-- Pick the new field value if the partial carries one. -/
def ov {α : Type} (n : Option α) (o : Option α) : Option α :=
  match n with
  | some v => some v
  | none => o

/-- Shallow merge `Object.assign(branches[branchId], data)`. -/
def assignData (b : Branch) (d : UpdateData) : Branch :=
  { b with
    tabId := ov d.tabId b.tabId
    parentId := d.parentId.getD b.parentId
    url := d.url.getD b.url
    title := d.title.getD b.title
    history := ov d.history b.history
    historyIndex := ov d.historyIndex b.historyIndex
    lastActiveAt := d.lastActiveAt.getD b.lastActiveAt }

/-- Operation `update(branchId, data)`: false on a missing id, else shallow-merge. -/
def update (s : Store) (branchId : String) (d : UpdateData) : Bool × Store :=
  match lookup s branchId with
  | none => (false, s)
  | some _ => (true, s.map (fun b => if b.id == branchId then assignData b d else b))

/-- Operation `create(tabId, parentId, url, title)`; the generated id and `Date.now()`
are explicit parameters. -/
def create (branchId : String) (now : Nat) (tabId : Option Int)
    (parentId : Option String) (url title : String) (s : Store) : String × Store :=
  let initialHistory : List Entry := if url ≠ "" then [⟨url, title, now⟩] else []
  let pid : Option String :=
    match parentId with
    | some p => if p = "" then none else some p
    | none => none
  let branch : Branch :=
    { id := branchId, tabId := tabId, parentId := pid, url := url, title := title,
      history := some initialHistory,
      historyIndex := some (if 0 < initialHistory.length then 0 else -1),
      createdAt := now, lastActiveAt := now, state := "awake", isRoot := false }
  (branchId, insertB s branch)

/-- JS array read `l[i]`: `undefined` outside `[0, length)`. -/
def jsGet {α : Type} (l : List α) (i : Int) : Option α :=
  if i < 0 then none else l.get? i.toNat

/-- JS `l.slice(0, e)` (a negative end counts from the end of the array). -/
def jsSliceTo {α : Type} (l : List α) (e : Int) : List α :=
  if e < 0 then l.take ((l.length : Int) + e).toNat else l.take e.toNat

/-- The append path of `addToHistory`: smart-branch truncation, push, then
the 50-entry trim, returning the new history array and cursor. -/
def appendCompute (hist : List Entry) (idx : Int) (url title : String)
    (now : Nat) : List Entry × Int :=
  let history1 := if idx < (hist.length : Int) - 1 then jsSliceTo hist (idx + 1) else hist
  let history2 := history1 ++ [⟨url, title, now⟩]
  let newIndex1 : Int := (history2.length : Int) - 1
  if 50 < history2.length then
    (history2.drop (history2.length - 50),
     max 0 (newIndex1 - ((history2.length : Int) - 50)))
  else (history2, newIndex1)

/-- The tail of `addToHistory` once a genuinely new url is being recorded. -/
def addToHistoryAppend (s : Store) (branchId url title : String) (now : Nat)
    (b : Branch) (hist : List Entry) (idx : Int) : Bool × Store :=
  let c := appendCompute hist idx url title now
  (true,
   (update s branchId
     { history := some c.1, historyIndex := some c.2, url := some url,
       title := some (if title ≠ "" then title else b.title) }).2)

/-- Operation `addToHistory(branchId, url, title, options)`. -/
def addToHistory (s : Store) (branchId url title : String)
    (isBreadcrumbNav : Bool) (now : Nat) : Bool × Store :=
  match lookup s branchId with
  | none => (false, s)
  | some branch =>
    if url = "" then (false, s)
    else
      let history := branch.history.getD []
      let historyIndex : Int :=
        match branch.historyIndex with
        | some i => i
        | none => max 0 ((history.length : Int) - 1)
      if isBreadcrumbNav then (false, s)
      else
        match jsGet history historyIndex with
        | some currentEntry =>
          if currentEntry.url = url then
            if title ≠ "" ∧ currentEntry.title ≠ title then
              (false,
               (update s branchId
                 { history := some (history.set historyIndex.toNat
                     { currentEntry with title := title }) }).2)
            else (false, s)
          else addToHistoryAppend s branchId url title now branch history historyIndex
        | none => addToHistoryAppend s branchId url title now branch history historyIndex

/-- Operation `navigateToHistoryIndex(branchId, index)`. -/
def navigateToHistoryIndex (s : Store) (branchId : String) (index : Int) :
    Option Entry × Store :=
  match lookup s branchId with
  | none => (none, s)
  | some branch =>
    let history := branch.history.getD []
    if index < 0 ∨ (history.length : Int) ≤ index then (none, s)
    else (jsGet history index, (update s branchId { historyIndex := some index }).2)

/-- Accessor `getHistoryIndex(branchId)`. -/
def getHistoryIndex (s : Store) (branchId : String) : Int :=
  match lookup s branchId with
  | none => -1
  | some branch =>
    match branch.historyIndex with
    | some i => i
    | none => ((branch.history.getD []).length : Int) - 1

/-- Operation `destroy(branchId)`: false on unknown ids and on ROOT. -/
def destroy (s : Store) (branchId : String) : Bool × Store :=
  match lookup s branchId with
  | none => (false, s)
  | some _ =>
    if branchId = ROOT_BRANCH_ID then (false, s)
    else (true, s.filter (fun b => b.id != branchId))

/-- Query `getChildren(branchId)`. -/
def getChildren (s : Store) (branchId : String) : List Branch :=
  s.filter (fun b => b.parentId == some branchId)

/-- The recursion of `getDescendants`, made total with explicit fuel over a
worklist: each branch of the list is emitted and its children are expanded
in place, which yields exactly the order of the JS recursion (child, the
descendants of the child, next child, …) whenever it completes.  `none` marks
fuel exhaustion, i.e. a recursion the JS source would not finish either
(it has no cycle protection). -/
def getDescFuel (s : Store) : Nat → List Branch → Option (List Branch)
  | 0, _ => none
  | _ + 1, [] => some []
  | n + 1, c :: rest =>
    (getDescFuel s n (getChildren s c.id ++ rest)).map (fun d => c :: d)

/-- Query `getDescendants(branchId)` with explicit fuel. -/
def getDescendantsF (s : Store) (branchId : String) (fuel : Nat) :
    Option (List Branch) :=
  getDescFuel s fuel (getChildren s branchId)

/-- Destroy every branch of a list in order (the bottom-up loop body of
`destroyWithChildren`). -/
def destroyList (s : Store) (l : List Branch) : Store :=
  l.foldl (fun st d => (destroy st d.id).2) s

/-- Operation `destroyWithChildren(branchId)`: collect descendants, destroy them
bottom-up (reverse order), destroy the node itself, return `true`. -/
def destroyWithChildren (s : Store) (branchId : String) (fuel : Nat) :
    Option (Bool × Store) :=
  match getDescendantsF s branchId fuel with
  | none => none
  | some descendants =>
    let s1 := destroyList s descendants.reverse
    some (true, (destroy s1 branchId).2)

/-- The `while (branch && branch.parentId)` walk of `getAncestors`, with
explicit fuel; `none` marks an iteration count the loop exceeds, i.e. the
JS loop would still be running. -/
def getAncestorsLoop (s : Store) : Nat → Branch → List Branch → Option (List Branch)
  | 0, _, _ => none
  | n + 1, branch, acc =>
    match branch.parentId with
    | none => some acc
    | some p =>
      if p = "" then some acc
      else
        match lookup s p with
        | some parent => getAncestorsLoop s n parent (acc ++ [parent])
        | none => some acc

/-- Query `getAncestors(branchId)` with explicit fuel. -/
def getAncestorsF (s : Store) (branchId : String) (fuel : Nat) :
    Option (List Branch) :=
  match lookup s branchId with
  | none => some []
  | some b => getAncestorsLoop s fuel b []

/-- JS truthiness of an optional numeric tab id (`0` is falsy). -/
def tabTruthy (t : Option Int) : Bool :=
  match t with
  | some v => v != 0
  | none => false

/-- Operation `ensureRoot(tabId)`: idempotent; updates the ROOT tabId when it exists,
otherwise inserts the ROOT record (which carries no history fields). -/
def ensureRoot (s : Store) (tabId : Option Int) (now : Nat) : Store :=
  match lookup s ROOT_BRANCH_ID with
  | some r =>
    if tabTruthy tabId ∧ r.tabId ≠ tabId then
      (update s ROOT_BRANCH_ID { tabId := tabId }).2
    else s
  | none =>
    insertB s
      { id := ROOT_BRANCH_ID, tabId := tabId, parentId := none, url := ROOT_URL,
        title := "Home", history := none, historyIndex := none,
        createdAt := now, lastActiveAt := now, state := "awake", isRoot := true }

/-- Whether the ROOT `tabId` still names a live tab
(`task.tabs.has(root.tabId)` over all tasks; `has(undefined)` is false). -/
def rootTabLive (root : Branch) (liveTabs : List Int) : Bool :=
  match root.tabId with
  | some t => liveTabs.contains t
  | none => false

/-- Fallback `x || getRootBranchId()` for an optional branch id (empty string is
falsy). -/
def effParentOfTarget (x : Option String) : String :=
  match x with
  | some p => if p = "" then ROOT_BRANCH_ID else p
  | none => ROOT_BRANCH_ID

/-- The `tab-added` handler of branchEvents.js, restricted to its effect on
the branch store.  `tabBranchId`/`tabParentBranchId` are `tabData.branchId`
and `tabData.parentBranchId`; `liveTabs` are the ids of currently live
tabs; `newId` is the id `create` would generate. -/
def tabAdded (s : Store) (tabId : Int) (tabBranchId tabParentBranchId : Option String)
    (tabUrl tabTitle : String) (liveTabs : List Int) (newId : String) (now : Nat) :
    Store :=
  if (match tabBranchId with | some bid => bid != "" | none => false) then s
  else
    match lookup s ROOT_BRANCH_ID with
    | none => ensureRoot s (some tabId) now
    | some root =>
      if rootTabLive root liveTabs = false then
        (update s ROOT_BRANCH_ID { tabId := some tabId }).2
      else
        (create newId now (some tabId) (some (effParentOfTarget tabParentBranchId))
          tabUrl tabTitle s).2

/-- Modelled from the spec: `branchState.isDescendant(a, b)` is exported by
branch-state code not under src/ (branchPanel.js only calls it); per spec
§4.4 it decides whether `b` lies in the descendant set of `a`. -/
def isDescendant (s : Store) (ancestorId descId : String) (fuel : Nat) :
    Option Bool :=
  (getDescendantsF s ancestorId fuel).map (fun ds => ds.any (fun b => b.id == descId))

/-- Modelled from the spec: `reparent(branchId, newParentId, index)` is
exported by branch-state code not under src/; per spec §4.4 it fails closed
(no mutation) when the dragged branch is ROOT, the target parent (null
meaning ROOT) equals it, or the target parent is one of its descendants,
and otherwise reassigns `parentId` and reports success. -/
def reparent (s : Store) (draggedId : String) (targetParentId : Option String)
    (fuel : Nat) : Option (Bool × Store) :=
  let effParent := targetParentId.getD ROOT_BRANCH_ID
  if draggedId = ROOT_BRANCH_ID ∨ effParent = draggedId then some (false, s)
  else
    match isDescendant s draggedId effParent fuel with
    | none => none
    | some true => some (false, s)
    | some false =>
      some (true, (update s draggedId { parentId := some (some effParent) }).2)

/-- The validation-and-apply core of `handleDragEnd` in branchPanel.js,
restricted to its effect on the branch store.  The `&&`-chain of `isValid`
is short-circuiting, so the descendant check only runs once the cheaper
checks pass. -/
def handleDragEnd (s : Store) (draggedBranchId targetBranchId : Option String)
    (fuel : Nat) : Option Store :=
  let effectiveParentId := effParentOfTarget targetBranchId
  match draggedBranchId with
  | none => some s
  | some dragged =>
    if dragged = "" then some s
    else if dragged = ROOT_BRANCH_ID then some s
    else if dragged = effectiveParentId then some s
    else
      match isDescendant s dragged effectiveParentId fuel with
      | none => none
      | some true => some s
      | some false => (reparent s dragged targetBranchId fuel).map Prod.snd

/-- The history array of a branch, reading a missing field as `[]`
(`branch.history || []`). -/
def histOf (b : Branch) : List Entry := b.history.getD []

/-- The effective cursor of a branch: the stored `historyIndex`, or
`history.length - 1` for a record without one (as `getHistoryIndex` reads
it). -/
def effIndex (b : Branch) : Int :=
  match b.historyIndex with
  | some i => i
  | none => ((histOf b).length : Int) - 1

/-- The per-branch cursor invariant: `historyIndex ∈ [-1, history.length - 1]`. -/
def BranchInv (b : Branch) : Prop :=
  -1 ≤ effIndex b ∧ effIndex b ≤ ((histOf b).length : Int) - 1

/-- The cursor invariant for every branch of a store. -/
def StoreInv (s : Store) : Prop := ∀ b ∈ s, BranchInv b

instance (b : Branch) : Decidable (BranchInv b) := by
  unfold BranchInv; infer_instance

instance (s : Store) : Decidable (StoreInv s) := by
  unfold StoreInv; infer_instance

/-- Every branch history is within the 50-entry cap. -/
def HistBound (s : Store) : Prop := ∀ b ∈ s, (histOf b).length ≤ 50

instance (s : Store) : Decidable (HistBound s) := by
  unfold HistBound; infer_instance

/-- The single-ROOT invariant: exactly one branch has a null `parentId`,
and any null-parent branch is ROOT. -/
def RootInv (s : Store) : Prop :=
  s.countP (fun b => b.parentId.isNone) = 1 ∧
  ∀ b ∈ s, b.parentId = none → b.id = ROOT_BRANCH_ID

instance (s : Store) : Decidable (RootInv s) := by
  unfold RootInv; infer_instance

/-! ### Basic lemmas about the store primitives -/

theorem assignData_id (b : Branch) (d : UpdateData) : (assignData b d).id = b.id := rfl

theorem lookup_map_idPres (s : Store) (f : Branch → Branch)
    (hf : ∀ b, (f b).id = b.id) (w : String) :
    lookup (s.map f) w = (lookup s w).map f := by
  induction s with
  | nil => rfl
  | cons a t ih =>
    simp only [List.map_cons, lookup, List.find?, hf a] at *
    cases hb : (a.id == w) <;> simp [hb, ih]

theorem lookup_mem {s : Store} {w : String} {b : Branch}
    (h : lookup s w = some b) : b ∈ s :=
  List.mem_of_find?_eq_some h

theorem lookup_id {s : Store} {w : String} {b : Branch}
    (h : lookup s w = some b) : b.id = w := by
  have := List.find?_some h
  simpa using this

theorem update_found {s : Store} {w : String} {b : Branch} (d : UpdateData)
    (h : lookup s w = some b) :
    update s w d =
      (true, s.map (fun x => if x.id == w then assignData x d else x)) := by
  unfold update
  rw [h]

theorem lookup_update_self {s : Store} {w : String} {b : Branch} (d : UpdateData)
    (h : lookup s w = some b) :
    lookup (update s w d).2 w = some (assignData b d) := by
  rw [update_found d h]
  have : lookup (s.map fun x => if x.id == w then assignData x d else x) w =
      (lookup s w).map fun x => if x.id == w then assignData x d else x := by
    apply lookup_map_idPres
    intro x
    by_cases hx : x.id == w <;> simp [hx, assignData_id]
  rw [this, h]
  simp [lookup_id h]

theorem lookup_update_other {s : Store} {w v : String} (d : UpdateData)
    (hne : v ≠ w) :
    lookup (update s w d).2 v = lookup s v := by
  unfold update
  cases h : lookup s w with
  | none => rfl
  | some b =>
    have : lookup (s.map fun x => if x.id == w then assignData x d else x) v =
        (lookup s v).map fun x => if x.id == w then assignData x d else x := by
      apply lookup_map_idPres
      intro x
      by_cases hx : x.id == w <;> simp [hx, assignData_id]
    simp only [this]
    cases hv : lookup s v with
    | none => rfl
    | some c =>
      have hc : c.id = v := lookup_id hv
      have hcw : (c.id == w) = false := by
        rw [hc]
        exact beq_false_of_ne hne
      simp [hcw]
      intro hh
      rw [hc] at hh
      exact absurd hh hne

theorem mem_update {s : Store} {w : String} (d : UpdateData) {b : Branch}
    (h : b ∈ (update s w d).2) :
    b ∈ s ∨ ∃ a ∈ s, b = assignData a d := by
  unfold update at h
  cases hw : lookup s w with
  | none => rw [hw] at h; exact Or.inl h
  | some r =>
    rw [hw] at h
    simp only at h
    rcases List.mem_map.mp h with ⟨a, ha, rfl⟩
    by_cases hx : a.id == w
    · right; exact ⟨a, ha, by simp [hx]⟩
    · left; simpa [hx] using ha

theorem lookup_filter_self (s : Store) (w : String) :
    lookup (s.filter (fun b => b.id != w)) w = none := by
  induction s with
  | nil => rfl
  | cons a t ih =>
    rw [List.filter_cons]
    cases ha : (a.id != w)
    · simpa using ih
    · have haw : (a.id == w) = false := by
        cases hb : (a.id == w) <;> simp_all
      simpa [ha, lookup, List.find?, haw] using ih

theorem lookup_filter_other {s : Store} {w v : String} (hne : v ≠ w) :
    lookup (s.filter (fun b => b.id != w)) v = lookup s v := by
  induction s with
  | nil => rfl
  | cons a t ih =>
    rw [List.filter_cons]
    cases ha : (a.id != w)
    · have haw : a.id = w := by
        cases hb : (a.id == w) <;> simp_all
      have hav : (a.id == v) = false := by
        rw [haw]
        exact beq_false_of_ne (fun hh => hne hh.symm)
      simpa [ha, lookup, List.find?, hav] using ih
    · cases hv : (a.id == v)
      · simpa [ha, lookup, List.find?, hv] using ih
      · simp [ha, lookup, List.find?, hv]

theorem destroy_root (s : Store) : destroy s ROOT_BRANCH_ID = (false, s) := by
  unfold destroy
  cases h : lookup s ROOT_BRANCH_ID <;> simp

theorem destroy_snd_other {s : Store} {w v : String} (hne : v ≠ w) :
    lookup (destroy s w).2 v = lookup s v := by
  unfold destroy
  cases h : lookup s w with
  | none => rfl
  | some b =>
    by_cases hw : w = ROOT_BRANCH_ID
    · simp [hw]
    · simp only [hw, if_false]
      exact lookup_filter_other hne

theorem destroy_snd_self {s : Store} {w : String} (hw : w ≠ ROOT_BRANCH_ID) :
    lookup (destroy s w).2 w = none := by
  unfold destroy
  cases h : lookup s w with
  | none => simpa using h
  | some b =>
    simp only [hw, if_false]
    exact lookup_filter_self s w

theorem destroy_none_pres {s : Store} {w v : String}
    (h : lookup s v = none) : lookup (destroy s w).2 v = none := by
  by_cases hv : v = w
  · subst hv
    by_cases hw : v = ROOT_BRANCH_ID
    · rw [hw] at h ⊢
      rw [destroy_root]
      exact h
    · exact destroy_snd_self hw
  · rw [destroy_snd_other hv]
    exact h

theorem destroy_root_pres (s : Store) (w : String) :
    lookup (destroy s w).2 ROOT_BRANCH_ID = lookup s ROOT_BRANCH_ID := by
  by_cases hw : w = ROOT_BRANCH_ID
  · subst hw; rw [destroy_root]
  · exact destroy_snd_other (fun h => hw h.symm)

theorem mem_destroy {s : Store} {w : String} {b : Branch}
    (h : b ∈ (destroy s w).2) : b ∈ s := by
  unfold destroy at h
  cases hw : lookup s w with
  | none => rw [hw] at h; exact h
  | some r =>
    rw [hw] at h
    by_cases hr : w = ROOT_BRANCH_ID
    · simpa [hr] using h
    · simp only [hr, if_false] at h
      exact List.mem_of_mem_filter h

theorem destroyList_none_pres {l : List Branch} {s : Store} {v : String}
    (h : lookup s v = none) : lookup (destroyList s l) v = none := by
  induction l generalizing s with
  | nil => exact h
  | cons a t ih =>
    unfold destroyList at *
    simp only [List.foldl_cons]
    exact ih (destroy_none_pres h)

theorem destroyList_root_pres (l : List Branch) (s : Store) :
    lookup (destroyList s l) ROOT_BRANCH_ID = lookup s ROOT_BRANCH_ID := by
  induction l generalizing s with
  | nil => rfl
  | cons a t ih =>
    unfold destroyList at *
    simp only [List.foldl_cons]
    rw [ih, destroy_root_pres]

theorem destroyList_removes {l : List Branch} {s : Store} {d : Branch}
    (hd : d ∈ l) (hne : d.id ≠ ROOT_BRANCH_ID) :
    lookup (destroyList s l) d.id = none := by
  induction l generalizing s with
  | nil => cases hd
  | cons a t ih =>
    unfold destroyList at *
    simp only [List.foldl_cons]
    rcases List.mem_cons.mp hd with rfl | hmem
    · exact destroyList_none_pres (destroy_snd_self hne)
    · exact ih hmem

theorem mem_destroyList {l : List Branch} {s : Store} {b : Branch}
    (h : b ∈ destroyList s l) : b ∈ s := by
  induction l generalizing s with
  | nil => exact h
  | cons a t ih =>
    unfold destroyList at *
    simp only [List.foldl_cons] at h
    exact mem_destroy (ih h)

theorem mem_insertB {s : Store} {nb b : Branch} (h : b ∈ insertB s nb) :
    b ∈ s ∨ b = nb := by
  unfold insertB at h
  by_cases ha : s.any (fun x => x.id == nb.id)
  · rw [if_pos ha] at h
    rcases List.mem_map.mp h with ⟨a, hmem, rfl⟩
    by_cases hx : a.id == nb.id
    · right; simp [hx]
    · left; simpa [hx] using hmem
  · rw [if_neg ha] at h
    rcases List.mem_append.mp h with hmem | hmem
    · exact Or.inl hmem
    · right; simpa using hmem

theorem any_eq_false_of_lookup_none {s : Store} {w : String}
    (h : lookup s w = none) : s.any (fun b => b.id == w) = false := by
  rw [List.any_eq_false]
  intro b hb
  have := List.find?_eq_none.mp h b hb
  simpa using this

theorem lookup_append_single (s : Store) (nb : Branch)
    (h : lookup s nb.id = none) : lookup (s ++ [nb]) nb.id = some nb := by
  unfold lookup at *
  rw [List.find?_append, h]
  simp

theorem insertB_fresh {s : Store} {nb : Branch}
    (h : lookup s nb.id = none) : insertB s nb = s ++ [nb] := by
  unfold insertB
  rw [if_neg]
  rw [any_eq_false_of_lookup_none h]
  simp

theorem lookup_insertB_fresh_self {s : Store} {nb : Branch}
    (h : lookup s nb.id = none) : lookup (insertB s nb) nb.id = some nb := by
  rw [insertB_fresh h]
  exact lookup_append_single s nb h

theorem lookup_insertB_fresh_other {s : Store} {nb : Branch} {v : String}
    (h : lookup s nb.id = none) (hne : v ≠ nb.id) :
    lookup (insertB s nb) v = lookup s v := by
  rw [insertB_fresh h]
  unfold lookup
  rw [List.find?_append]
  cases hv : List.find? (fun b => b.id == v) s
  · have hnv : (nb.id == v) = false := beq_false_of_ne (fun hh => hne hh.symm)
    simp [List.find?, hnv]
  · simp

/-! ### Concrete stores used as inputs -/

/-- A branch `a` whose parent chain is corrupted into a two-cycle with `b`. -/
def cycA : Branch :=
  { id := "a", tabId := none, parentId := some "b", url := "", title := "",
    history := some [], historyIndex := some (-1), createdAt := 0,
    lastActiveAt := 0, state := "awake", isRoot := false }

/-- The other half of the corrupted parent cycle. -/
def cycB : Branch := { cycA with id := "b", parentId := some "a" }

/-- A store whose two branches name each other as `parentId`. -/
def cycStore : Store := [cycA, cycB]

/-- A branch whose `parentId` names an id that is absent from the store. -/
def ghostChild : Branch :=
  { id := "b1", tabId := none, parentId := some "ghost", url := "", title := "",
    history := some [], historyIndex := some (-1), createdAt := 0,
    lastActiveAt := 0, state := "awake", isRoot := false }

/-- A store containing only `ghostChild`. -/
def ghostStore : Store := [ghostChild]

/-- The ROOT record as `ensureRoot` builds it (no history fields). -/
def wRoot : Branch :=
  { id := ROOT_BRANCH_ID, tabId := some 1, parentId := none, url := ROOT_URL,
    title := "Home", history := none, historyIndex := none, createdAt := 0,
    lastActiveAt := 0, state := "awake", isRoot := true }

/-- A child branch of ROOT. -/
def wChild : Branch :=
  { id := "br_c1", tabId := some 2, parentId := some ROOT_BRANCH_ID, url := "u",
    title := "", history := some [⟨"u", "", 0⟩], historyIndex := some 0,
    createdAt := 0, lastActiveAt := 0, state := "awake", isRoot := false }

/-! ### C6 -/

theorem cyc_loop_none : ∀ (n : Nat) (acc : List Branch) (b : Branch),
    b = cycA ∨ b = cycB → getAncestorsLoop cycStore n b acc = none := by
  intro n
  induction n with
  | zero => intro acc b _; rfl
  | succ n ih =>
    intro acc b hb
    rcases hb with rfl | rfl
    · rw [show getAncestorsLoop cycStore (n + 1) cycA acc =
          getAncestorsLoop cycStore n cycB (acc ++ [cycB]) from rfl]
      exact ih _ _ (Or.inr rfl)
    · rw [show getAncestorsLoop cycStore (n + 1) cycB acc =
          getAncestorsLoop cycStore n cycA (acc ++ [cycA]) from rfl]
      exact ih _ _ (Or.inl rfl)

/-- C6: the claim asserts that `getAncestors` terminates even on a store
whose parent chain is a cycle because the walk is guarded; in the source
the `while` loop has no visited-set and no bound, and on the two-branch
cycle `a ⇄ b` it never reaches any of its exit conditions — for every
iteration bound the fuel-indexed model of the loop is still running. -/
theorem getAncestors_cycle_no_guard :
    ∀ fuel : Nat, getAncestorsF cycStore "a" fuel = none := by
  intro fuel
  show getAncestorsLoop cycStore fuel cycA [] = none
  exact cyc_loop_none fuel [] cycA (Or.inl rfl)

/-! ### C9 -/

/-- C9 (amended): a store operation invoked with an unknown branchId never
throws; `update`, `addToHistory` and `destroy` return `false`,
`navigateToHistoryIndex` returns `null`, `getHistoryIndex` returns the
sentinel `-1`, and each leaves the store unchanged; and `destroy` returns
`false` and leaves the store unchanged on ROOT as well.
(`destroyWithChildren` is the exception recorded in the counterexample.) -/
theorem unknown_id_noop (s : Store) (branchId : String) (d : UpdateData)
    (url title : String) (bc : Bool) (now : Nat) (idx : Int)
    (h : lookup s branchId = none) :
    update s branchId d = (false, s) ∧
    addToHistory s branchId url title bc now = (false, s) ∧
    navigateToHistoryIndex s branchId idx = (none, s) ∧
    getHistoryIndex s branchId = -1 ∧
    destroy s branchId = (false, s) ∧
    (∀ s2 : Store, destroy s2 ROOT_BRANCH_ID = (false, s2)) := by
  refine ⟨?_, ?_, ?_, ?_, ?_, destroy_root⟩ <;>
    simp [update, addToHistory, navigateToHistoryIndex, getHistoryIndex, destroy, h]

/-- C9 witness: the amended statement evaluated on a concrete store and a
concrete unknown id. -/
theorem unknown_id_noop_inst :
    update ghostStore "zz" {} = (false, ghostStore) ∧
    addToHistory ghostStore "zz" "u" "t" false 7 = (false, ghostStore) ∧
    navigateToHistoryIndex ghostStore "zz" 0 = (none, ghostStore) ∧
    getHistoryIndex ghostStore "zz" = -1 ∧
    destroy ghostStore "zz" = (false, ghostStore) ∧
    (∀ s2 : Store, destroy s2 ROOT_BRANCH_ID = (false, s2)) :=
  unknown_id_noop ghostStore "zz" {} "u" "t" false 7 0 rfl

/-- C9 counterexample: `destroyWithChildren` called with an id absent from
the store returns `true` (not a falsy/null result), and it even mutates the
store when some branch names the unknown id as its parent. -/
theorem unknown_id_destroyWithChildren_break :
    lookup ghostStore "ghost" = none ∧
    destroyWithChildren ghostStore "ghost" 2 = some (true, []) ∧
    ghostStore ≠ [] := by
  refine ⟨rfl, rfl, ?_⟩
  decide

/-! ### C10 -/

/-- C10: whenever the recursive descendant collection completes,
`destroyWithChildren` returns `true` — also when the id is ROOT or absent —
the ROOT entry of the store is left exactly as it was, and every collected
descendant whose id is not ROOT is removed from the store. -/
theorem destroyWithChildren_true_and_removes (s : Store) (branchId : String)
    (fuel : Nat) (ds : List Branch) (r : Bool × Store)
    (hds : getDescendantsF s branchId fuel = some ds)
    (hr : destroyWithChildren s branchId fuel = some r) :
    r.1 = true ∧
    lookup r.2 ROOT_BRANCH_ID = lookup s ROOT_BRANCH_ID ∧
    ∀ d ∈ ds, d.id ≠ ROOT_BRANCH_ID → lookup r.2 d.id = none := by
  unfold destroyWithChildren at hr
  rw [hds] at hr
  simp only [Option.some.injEq] at hr
  subst hr
  refine ⟨rfl, ?_, ?_⟩
  · rw [destroy_root_pres, destroyList_root_pres]
  · intro d hd hdne
    apply destroy_none_pres
    exact destroyList_removes (List.mem_reverse.mpr hd) hdne

/-- C10 witness: evaluated on the concrete store `[ROOT, child]`, where the
descendant list of ROOT is `[child]` and the result is `(true, [ROOT])`. -/
theorem destroyWithChildren_true_and_removes_inst :
    (true, ([wRoot] : Store)).1 = true ∧
    lookup ([wRoot] : Store) ROOT_BRANCH_ID = lookup [wRoot, wChild] ROOT_BRANCH_ID ∧
    ∀ d ∈ [wChild], d.id ≠ ROOT_BRANCH_ID → lookup ([wRoot] : Store) d.id = none :=
  destroyWithChildren_true_and_removes [wRoot, wChild] ROOT_BRANCH_ID 3
    [wChild] (true, [wRoot]) rfl rfl

/-! ### C8 -/

theorem ov_some {α : Type} (v : α) (o : Option α) : ov (some v) o = some v := rfl

theorem ov_none {α : Type} (o : Option α) : ov none o = o := rfl

theorem nav_found {s : Store} {branchId : String} {b : Branch} (idx : Int)
    (hb : lookup s branchId = some b) :
    navigateToHistoryIndex s branchId idx =
      if idx < 0 ∨ ((b.history.getD []).length : Int) ≤ idx then (none, s)
      else (jsGet (b.history.getD []) idx,
            (update s branchId { historyIndex := some idx }).2) := by
  unfold navigateToHistoryIndex
  rw [hb]

theorem assignData_historyIndex (b : Branch) (i : Int) :
    assignData b { historyIndex := some i } = { b with historyIndex := some i } := rfl

/-- C8: with an in-range index, `navigateToHistoryIndex` returns the entry
at that index (non-null), repositions the cursor to it, and leaves the
history array of the branch and all other branches untouched; with an
out-of-range index it returns null and leaves the whole store unchanged. -/
theorem navigateToHistoryIndex_spec (s : Store) (branchId : String) (b : Branch)
    (idx : Int) (hb : lookup s branchId = some b) :
    (0 ≤ idx → idx < ((b.history.getD []).length : Int) →
      (navigateToHistoryIndex s branchId idx).1 = jsGet (b.history.getD []) idx ∧
      (∃ e, jsGet (b.history.getD []) idx = some e) ∧
      lookup (navigateToHistoryIndex s branchId idx).2 branchId =
        some { b with historyIndex := some idx } ∧
      (∀ w, w ≠ branchId →
        lookup (navigateToHistoryIndex s branchId idx).2 w = lookup s w)) ∧
    ((idx < 0 ∨ ((b.history.getD []).length : Int) ≤ idx) →
      navigateToHistoryIndex s branchId idx = (none, s)) := by
  constructor
  · intro h0 hlen
    have hcond : ¬ (idx < 0 ∨ ((b.history.getD []).length : Int) ≤ idx) := by omega
    rw [nav_found idx hb, if_neg hcond]
    have hnn : ¬ idx < 0 := by omega
    have hlt : idx.toNat < (b.history.getD []).length := by omega
    refine ⟨rfl, ⟨(b.history.getD []).get ⟨idx.toNat, hlt⟩, ?_⟩, ?_, ?_⟩
    · simp [jsGet, hnn, List.get?_eq_get hlt]
    · rw [lookup_update_self _ hb, assignData_historyIndex]
    · intro w hw
      exact lookup_update_other _ hw
  · intro hcond
    rw [nav_found idx hb, if_pos hcond]

/-- A branch holding history `[a0, b0, c0]` with the cursor restored to the
last entry, as in the breadcrumb example of the spec. -/
def wNav : Branch :=
  { id := "n1", tabId := some 3, parentId := some ROOT_BRANCH_ID, url := "c",
    title := "", history := some [⟨"a", "", 0⟩, ⟨"b", "", 1⟩, ⟨"c", "", 2⟩],
    historyIndex := some 2, createdAt := 0, lastActiveAt := 0, state := "awake",
    isRoot := false }

/-- C8 witness: on history `[A,B,C]` with cursor 2, `navigateToHistoryIndex 0`
returns entry A, sets the cursor to 0 and keeps the history intact. -/
theorem navigateToHistoryIndex_spec_inst :
    (navigateToHistoryIndex [wNav] "n1" 0).1 = jsGet (wNav.history.getD []) 0 ∧
    (∃ e, jsGet (wNav.history.getD []) 0 = some e) ∧
    lookup (navigateToHistoryIndex [wNav] "n1" 0).2 "n1" =
      some { wNav with historyIndex := some 0 } ∧
    (∀ w, w ≠ "n1" →
      lookup (navigateToHistoryIndex [wNav] "n1" 0).2 w = lookup [wNav] w) :=
  (navigateToHistoryIndex_spec [wNav] "n1" wNav 0 rfl).1 (by decide) (by decide)

/-! ### C2 -/

theorem addToHistory_found {s : Store} {branchId : String} {b : Branch}
    (url title : String) (bc : Bool) (now : Nat)
    (hb : lookup s branchId = some b) :
    addToHistory s branchId url title bc now =
      (if url = "" then (false, s)
       else
         let history := b.history.getD []
         let historyIndex : Int :=
           match b.historyIndex with
           | some i => i
           | none => max 0 ((history.length : Int) - 1)
         if bc then (false, s)
         else
           match jsGet history historyIndex with
           | some currentEntry =>
             if currentEntry.url = url then
               if title ≠ "" ∧ currentEntry.title ≠ title then
                 (false,
                  (update s branchId
                    { history := some (history.set historyIndex.toNat
                        { currentEntry with title := title }) }).2)
               else (false, s)
             else addToHistoryAppend s branchId url title now b history historyIndex
           | none => addToHistoryAppend s branchId url title now b history historyIndex) := by
  unfold addToHistory
  rw [hb]

/-- C2: from history `[A,B,C]` with the cursor on `A`, recording a new url
`D` (whose url differs from that of `A`, no breadcrumb flag) truncates the forward
entries and appends the new one: the branch ends with history `[A, D]` and
cursor `1`, and the call reports success. -/
theorem addToHistory_truncates_forward (s : Store) (branchId : String) (b : Branch)
    (a e2 e3 : Entry) (d t : String) (now : Nat)
    (hb : lookup s branchId = some b)
    (hh : b.history = some [a, e2, e3]) (hi : b.historyIndex = some 0)
    (hd : d ≠ "") (hne : a.url ≠ d) :
    (addToHistory s branchId d t false now).1 = true ∧
    ∃ b', lookup (addToHistory s branchId d t false now).2 branchId = some b' ∧
      b'.history = some [a, ⟨d, t, now⟩] ∧ b'.historyIndex = some 1 := by
  have heq : addToHistory s branchId d t false now =
      (true,
       (update s branchId
         { history := some [a, ⟨d, t, now⟩], historyIndex := some 1, url := some d,
           title := some (if t ≠ "" then t else b.title) }).2) := by
    rw [addToHistory_found d t false now hb, if_neg hd]
    simp only [hh, hi, Option.getD_some, if_neg Bool.false_ne_true]
    norm_num [jsGet, hne, addToHistoryAppend, appendCompute, jsSliceTo]
  rw [heq]
  refine ⟨rfl, assignData b _, lookup_update_self _ hb, rfl, rfl⟩

/-- A branch holding history `[A,B,C]` with the cursor moved back to `A`. -/
def wBack : Branch := { wNav with id := "n2", historyIndex := some 0 }

/-- C2 witness: the smart-branching statement evaluated on the concrete
branch with history `[A,B,C]`, cursor 0, and new url `"d"`. -/
theorem addToHistory_truncates_forward_inst :
    (addToHistory [wBack] "n2" "d" "t" false 9).1 = true ∧
    ∃ b', lookup (addToHistory [wBack] "n2" "d" "t" false 9).2 "n2" = some b' ∧
      b'.history = some [⟨"a", "", 0⟩, ⟨"d", "t", 9⟩] ∧ b'.historyIndex = some 1 :=
  addToHistory_truncates_forward [wBack] "n2" wBack ⟨"a", "", 0⟩ ⟨"b", "", 1⟩
    ⟨"c", "", 2⟩ "d" "t" 9 rfl rfl rfl (by decide) (by decide)

/-! ### C3 -/

/-- The cursor value `addToHistory` works with: the stored `historyIndex`,
or `Math.max(0, history.length - 1)` when the field is absent. -/
def effIdxAdd (b : Branch) : Int :=
  match b.historyIndex with
  | some i => i
  | none => max 0 (((b.history.getD []).length : Int) - 1)

theorem addToHistory_found2 {s : Store} {branchId : String} {b : Branch}
    (url title : String) (bc : Bool) (now : Nat) (hb : lookup s branchId = some b) :
    addToHistory s branchId url title bc now =
      (if url = "" then (false, s)
       else if bc then (false, s)
       else
         match jsGet (histOf b) (effIdxAdd b) with
         | some currentEntry =>
           if currentEntry.url = url then
             if title ≠ "" ∧ currentEntry.title ≠ title then
               (false,
                (update s branchId
                  { history := some ((histOf b).set (effIdxAdd b).toNat
                      { currentEntry with title := title }) }).2)
             else (false, s)
           else addToHistoryAppend s branchId url title now b (histOf b) (effIdxAdd b)
         | none => addToHistoryAppend s branchId url title now b (histOf b) (effIdxAdd b)) := by
  unfold addToHistory histOf effIdxAdd
  rw [hb]

theorem addToHistoryAppend_snd (s : Store) (branchId url title : String)
    (now : Nat) (b : Branch) (hist : List Entry) (idx : Int) :
    (addToHistoryAppend s branchId url title now b hist idx).2 =
      (update s branchId
        { history := some (appendCompute hist idx url title now).1,
          historyIndex := some (appendCompute hist idx url title now).2,
          url := some url,
          title := some (if title ≠ "" then title else b.title) }).2 := rfl

theorem appendCompute_len (hist : List Entry) (idx : Int) (url title : String)
    (now : Nat) : (appendCompute hist idx url title now).1.length ≤ 50 := by
  simp only [appendCompute]
  split <;> split <;> dsimp only <;> (try rw [List.length_drop]) <;> omega

theorem trim_cursor_bounds (n : Nat) (hn : 50 < n) :
    -1 ≤ max 0 ((n : Int) - 1 - ((n : Int) - 50)) ∧
    max 0 ((n : Int) - 1 - ((n : Int) - 50)) ≤ ((n - (n - 50) : Nat) : Int) - 1 := by
  have h1 : ((n : Int) - 1 - ((n : Int) - 50)) = 49 := by ring
  have h2 : n - (n - 50) = 50 := by omega
  rw [h1, h2]
  norm_num

theorem appendCompute_cursor (hist : List Entry) (idx : Int) (url title : String)
    (now : Nat) :
    -1 ≤ (appendCompute hist idx url title now).2 ∧
    (appendCompute hist idx url title now).2 ≤
      ((appendCompute hist idx url title now).1.length : Int) - 1 := by
  simp only [appendCompute]
  split
  · split
    · dsimp only
      rw [List.length_drop]
      exact trim_cursor_bounds _ (by assumption)
    · dsimp only
      constructor <;> omega
  · split
    · dsimp only
      rw [List.length_drop]
      exact trim_cursor_bounds _ (by assumption)
    · dsimp only
      constructor <;> omega

theorem histOf_assign_some (a : Branch) (d : UpdateData) (l : List Entry)
    (hd : d.history = some l) : histOf (assignData a d) = l := by
  simp [histOf, assignData, hd, ov]

theorem histOf_assign_none (a : Branch) (d : UpdateData)
    (hd : d.history = none) : histOf (assignData a d) = histOf a := by
  simp [histOf, assignData, hd, ov]

theorem effIndex_assign_some (a : Branch) (d : UpdateData) (i : Int)
    (hd : d.historyIndex = some i) : effIndex (assignData a d) = i := by
  simp [effIndex, assignData, hd, ov]

theorem historyIndex_assign_none (a : Branch) (d : UpdateData)
    (hd : d.historyIndex = none) :
    (assignData a d).historyIndex = a.historyIndex := by
  simp [assignData, hd, ov]

theorem historyIndex_assign_some (a : Branch) (d : UpdateData) (i : Int)
    (hd : d.historyIndex = some i) :
    (assignData a d).historyIndex = some i := by
  simp [assignData, hd, ov]

theorem addToHistory_result {s : Store} {branchId : String} {b : Branch}
    (url title : String) (bc : Bool) (now : Nat) (hb : lookup s branchId = some b) :
    (addToHistory s branchId url title bc now).2 = s ∨
    (∃ ce : Entry,
      (addToHistory s branchId url title bc now).2 =
        (update s branchId
          { history := some ((histOf b).set (effIdxAdd b).toNat
              { ce with title := title }) }).2) ∨
    (addToHistory s branchId url title bc now).2 =
      (addToHistoryAppend s branchId url title now b (histOf b) (effIdxAdd b)).2 := by
  rw [addToHistory_found2 url title bc now hb]
  by_cases hu : url = ""
  · rw [if_pos hu]
    left
    rfl
  rw [if_neg hu]
  cases bc with
  | true =>
    left
    simp
  | false =>
    rw [if_neg Bool.false_ne_true]
    cases hj : jsGet (histOf b) (effIdxAdd b) with
    | none =>
      right; right
      simp only [hj]
    | some ce =>
      simp only [hj]
      by_cases hcu : ce.url = url
      · rw [if_pos hcu]
        by_cases ht : title ≠ "" ∧ ce.title ≠ title
        · rw [if_pos ht]
          right; left
          exact ⟨ce, rfl⟩
        · rw [if_neg ht]
          left
          rfl
      · rw [if_neg hcu]
        right; right
        rfl

theorem addToHistory_bound (s : Store) (branchId url title : String) (bc : Bool)
    (now : Nat) (hs : HistBound s) :
    HistBound (addToHistory s branchId url title bc now).2 := by
  cases hb : lookup s branchId with
  | none =>
    have hres : (addToHistory s branchId url title bc now).2 = s := by
      unfold addToHistory
      rw [hb]
    rw [hres]
    exact hs
  | some b =>
    have hbmem := lookup_mem hb
    rcases addToHistory_result url title bc now hb with h | ⟨ce, h⟩ | h
    · rw [h]
      exact hs
    · rw [h]
      intro x hx
      rcases mem_update _ hx with hmem | ⟨a, _, rfl⟩
      · exact hs x hmem
      · rw [histOf_assign_some _ _ _ rfl, List.length_set]
        exact hs b hbmem
    · rw [h, addToHistoryAppend_snd]
      intro x hx
      rcases mem_update _ hx with hmem | ⟨a, _, rfl⟩
      · exact hs x hmem
      · rw [histOf_assign_some _ _ _ rfl]
        exact appendCompute_len _ _ _ _ _

theorem cap_scenario (s : Store) (branchId : String) (b : Branch)
    (h : List Entry) (e : Entry) (d t : String) (now : Nat)
    (hb : lookup s branchId = some b) (hh : b.history = some h)
    (hlen : h.length = 50) (hi : b.historyIndex = some 49)
    (hget : jsGet h 49 = some e) (hne : e.url ≠ d) (hd : d ≠ "") :
    (addToHistory s branchId d t false now).1 = true ∧
    ∃ b', lookup (addToHistory s branchId d t false now).2 branchId = some b' ∧
      b'.history = some (h.drop 1 ++ [(⟨d, t, now⟩ : Entry)]) ∧
      (h.drop 1 ++ [(⟨d, t, now⟩ : Entry)]).length = 50 ∧
      b'.historyIndex = some (49 + 1 - 1) := by
  have hc : appendCompute h 49 d t now = (h.drop 1 ++ [(⟨d, t, now⟩ : Entry)], 49) := by
    simp only [appendCompute]
    have h1 : ¬ ((49 : Int) < (h.length : Int) - 1) := by
      rw [hlen]
      norm_num
    rw [if_neg h1]
    have hx51 : (h ++ [(⟨d, t, now⟩ : Entry)]).length = 51 := by
      simp [hlen]
    rw [if_pos (show 50 < (h ++ [(⟨d, t, now⟩ : Entry)]).length by
      rw [hx51]; norm_num)]
    simp only [Prod.mk.injEq]
    constructor
    · rw [List.drop_append_of_le_length (by rw [hx51, hlen]; norm_num)]
      rw [hx51]
    · rw [hx51]
      norm_num
  have heq : addToHistory s branchId d t false now =
      (true,
       (update s branchId
         { history := some (h.drop 1 ++ [(⟨d, t, now⟩ : Entry)]), historyIndex := some 49,
           url := some d, title := some (if t ≠ "" then t else b.title) }).2) := by
    rw [addToHistory_found2 d t false now hb, if_neg hd,
      if_neg Bool.false_ne_true]
    simp only [histOf, effIdxAdd, hh, hi, Option.getD_some, hget]
    rw [if_neg hne]
    unfold addToHistoryAppend
    rw [hc]
  rw [heq]
  refine ⟨rfl, assignData b _, lookup_update_self _ hb, rfl, ?_, ?_⟩
  · simp [hlen]
  · rw [historyIndex_assign_some _ _ 49 rfl]
    norm_num

/-- C3: on a branch whose history already holds 50 entries with the cursor
at the tail, recording a distinct new url keeps the length at 50 by
evicting the oldest entry and leaves the cursor at `49 = 49 + 1 - 1`
(pre-append cursor plus one minus the single eviction); and `addToHistory`
never grows any history beyond 50 entries: the 50-entry bound on every
branch is preserved by every call. -/
theorem addToHistory_cap_fifty :
    (∀ (s : Store) (branchId : String) (b : Branch) (h : List Entry) (e : Entry)
       (d t : String) (now : Nat),
       lookup s branchId = some b → b.history = some h → h.length = 50 →
       b.historyIndex = some 49 → jsGet h 49 = some e → e.url ≠ d → d ≠ "" →
       (addToHistory s branchId d t false now).1 = true ∧
       ∃ b', lookup (addToHistory s branchId d t false now).2 branchId = some b' ∧
         b'.history = some (h.drop 1 ++ [(⟨d, t, now⟩ : Entry)]) ∧
         (h.drop 1 ++ [(⟨d, t, now⟩ : Entry)]).length = 50 ∧
         b'.historyIndex = some (49 + 1 - 1)) ∧
    (∀ (s : Store) (branchId url title : String) (bc : Bool) (now : Nat),
       HistBound s → HistBound (addToHistory s branchId url title bc now).2) :=
  ⟨fun s branchId b h e d t now hb hh hlen hi hget hne hd =>
     cap_scenario s branchId b h e d t now hb hh hlen hi hget hne hd,
   fun s branchId url title bc now hs =>
     addToHistory_bound s branchId url title bc now hs⟩

/-- A branch with a full 50-entry history and the cursor at the tail. -/
def wFull : Branch :=
  { wNav with
    id := "n3"
    history := some (List.replicate 50 ⟨"x", "", 0⟩)
    historyIndex := some 49 }

/-- C3 witness: the cap statement evaluated on the concrete 50-entry
branch, and the bound statement evaluated on the same store. -/
theorem addToHistory_cap_fifty_inst :
    ((addToHistory [wFull] "n3" "d" "t" false 9).1 = true ∧
     ∃ b', lookup (addToHistory [wFull] "n3" "d" "t" false 9).2 "n3" = some b' ∧
       b'.history = some ((List.replicate 50 (⟨"x", "", 0⟩ : Entry)).drop 1 ++
         [(⟨"d", "t", 9⟩ : Entry)]) ∧
       ((List.replicate 50 (⟨"x", "", 0⟩ : Entry)).drop 1 ++
         [(⟨"d", "t", 9⟩ : Entry)]).length = 50 ∧
       b'.historyIndex = some (49 + 1 - 1)) ∧
    HistBound (addToHistory [wFull] "n3" "d" "t" false 9).2 :=
  ⟨addToHistory_cap_fifty.1 [wFull] "n3" wFull
     (List.replicate 50 ⟨"x", "", 0⟩) ⟨"x", "", 0⟩ "d" "t" 9 rfl rfl (by decide)
     rfl (by decide) (by decide) (by decide),
   addToHistory_cap_fifty.2 [wFull] "n3" "d" "t" false 9 (by decide)⟩

/-! ### C1 -/

/-- Branch ids are pairwise distinct — automatically true of every state a
JS object keyed by id can take, and needed because the list model could
otherwise hold two entries with one key. -/
def UniqueIds (s : Store) : Prop := (s.map (fun b => b.id)).Nodup

instance (s : Store) : Decidable (UniqueIds s) := by
  unfold UniqueIds; infer_instance

theorem unique_lookup {s : Store} {w : String} {b : Branch}
    (hu : UniqueIds s) (hb : lookup s w = some b) :
    ∀ a ∈ s, a.id = w → a = b := by
  induction s with
  | nil => intro a ha; cases ha
  | cons c t ih =>
    intro a ha haw
    unfold lookup at hb
    rw [List.find?] at hb
    unfold UniqueIds at hu
    rw [List.map_cons, List.nodup_cons] at hu
    cases hc : (c.id == w) with
    | true =>
      rw [hc] at hb
      have hcb : c = b := by simpa using hb
      have hcw : c.id = w := by simpa using hc
      rcases List.mem_cons.mp ha with rfl | hat
      · exact hcb
      · exfalso
        apply hu.1
        rw [hcw, ← haw]
        exact List.mem_map_of_mem _ hat
    | false =>
      rw [hc] at hb
      rcases List.mem_cons.mp ha with rfl | hat
      · exfalso
        have hw : (a.id == w) = true := by simp [haw]
        rw [hw] at hc
        cases hc
      · exact ih hu.2 hb a hat haw

theorem mem_update_unique {s : Store} {w : String} {b x : Branch}
    (d : UpdateData) (hu : UniqueIds s) (hb : lookup s w = some b)
    (hx : x ∈ (update s w d).2) : x ∈ s ∨ x = assignData b d := by
  unfold update at hx
  rw [hb] at hx
  simp only at hx
  rcases List.mem_map.mp hx with ⟨a, ha, rfl⟩
  by_cases hw : a.id == w
  · right
    rw [if_pos hw, unique_lookup hu hb a ha (by simpa using hw)]
  · left
    rw [if_neg hw]
    exact ha

theorem branchInv_of_bounds {b : Branch} (h1 : -1 ≤ effIndex b)
    (h2 : effIndex b ≤ ((histOf b).length : Int) - 1) : BranchInv b := ⟨h1, h2⟩

theorem storeInv_update_noHist (s : Store) (hs : StoreInv s) (w : String)
    (d : UpdateData) (h1 : d.history = none) (h2 : d.historyIndex = none) :
    StoreInv (update s w d).2 := by
  intro x hx
  rcases mem_update _ hx with hmem | ⟨a, ha, rfl⟩
  · exact hs x hmem
  · have e1 := histOf_assign_none a d h1
    have e2 := historyIndex_assign_none a d h2
    have hb := hs a ha
    unfold BranchInv at hb ⊢
    unfold effIndex at hb ⊢
    rw [e1, e2]
    exact hb

theorem storeInv_create (s : Store) (hs : StoreInv s) (bid : String) (now : Nat)
    (tid : Option Int) (pid : Option String) (url title : String) :
    StoreInv (create bid now tid pid url title s).2 := by
  intro x hx
  simp only [create] at hx
  rcases mem_insertB hx with hmem | rfl
  · exact hs x hmem
  · by_cases hu : url = "" <;>
      simp [BranchInv, effIndex, histOf, hu]

/-- The ROOT record `ensureRoot` inserts when ROOT is absent. -/
def rootRecord (tid : Option Int) (now : Nat) : Branch :=
  { id := ROOT_BRANCH_ID, tabId := tid, parentId := none, url := ROOT_URL,
    title := "Home", history := none, historyIndex := none,
    createdAt := now, lastActiveAt := now, state := "awake", isRoot := true }

theorem ensureRoot_found {s : Store} {r : Branch} (tid : Option Int) (now : Nat)
    (h : lookup s ROOT_BRANCH_ID = some r) :
    ensureRoot s tid now =
      if tabTruthy tid ∧ r.tabId ≠ tid then
        (update s ROOT_BRANCH_ID { tabId := tid }).2
      else s := by
  unfold ensureRoot
  rw [h]

theorem ensureRoot_missing {s : Store} (tid : Option Int) (now : Nat)
    (h : lookup s ROOT_BRANCH_ID = none) :
    ensureRoot s tid now = insertB s (rootRecord tid now) := by
  unfold ensureRoot rootRecord
  rw [h]

theorem storeInv_ensureRoot (s : Store) (hs : StoreInv s) (tid : Option Int)
    (now : Nat) : StoreInv (ensureRoot s tid now) := by
  cases h : lookup s ROOT_BRANCH_ID with
  | some r =>
    rw [ensureRoot_found tid now h]
    split
    · exact storeInv_update_noHist s hs ROOT_BRANCH_ID { tabId := tid } rfl rfl
    · exact hs
  | none =>
    rw [ensureRoot_missing tid now h]
    intro x hx
    rcases mem_insertB hx with hmem | rfl
    · exact hs x hmem
    · norm_num [BranchInv, effIndex, histOf, rootRecord]

theorem storeInv_addToHistory (s : Store) (hs : StoreInv s) (hu : UniqueIds s)
    (bid url title : String) (bc : Bool) (now : Nat) :
    StoreInv (addToHistory s bid url title bc now).2 := by
  cases hb : lookup s bid with
  | none =>
    have hres : (addToHistory s bid url title bc now).2 = s := by
      unfold addToHistory
      rw [hb]
    rw [hres]
    exact hs
  | some b =>
    rcases addToHistory_result url title bc now hb with h | ⟨ce, h⟩ | h
    · rw [h]
      exact hs
    · rw [h]
      intro x hx
      rcases mem_update_unique _ hu hb hx with hmem | rfl
      · exact hs x hmem
      · have e1 := histOf_assign_some b _ _
          (rfl : (({ history := some ((histOf b).set (effIdxAdd b).toNat
            { ce with title := title }) } : UpdateData)).history = _)
        have e2 := historyIndex_assign_none b
          ({ history := some ((histOf b).set (effIdxAdd b).toNat
            { ce with title := title }) } : UpdateData) rfl
        have hbInv := hs b (lookup_mem hb)
        unfold BranchInv at hbInv ⊢
        unfold effIndex at hbInv ⊢
        rw [e1, e2, List.length_set]
        exact hbInv
    · rw [h, addToHistoryAppend_snd]
      intro x hx
      rcases mem_update_unique _ hu hb hx with hmem | rfl
      · exact hs x hmem
      · apply branchInv_of_bounds
        · rw [effIndex_assign_some _ _ _ rfl]
          exact (appendCompute_cursor _ _ _ _ _).1
        · rw [effIndex_assign_some _ _ _ rfl, histOf_assign_some _ _ _ rfl]
          exact (appendCompute_cursor _ _ _ _ _).2

theorem storeInv_nav (s : Store) (hs : StoreInv s) (hu : UniqueIds s)
    (bid : String) (idx : Int) :
    StoreInv (navigateToHistoryIndex s bid idx).2 := by
  cases hb : lookup s bid with
  | none =>
    have hres : (navigateToHistoryIndex s bid idx).2 = s := by
      unfold navigateToHistoryIndex
      rw [hb]
    rw [hres]
    exact hs
  | some b =>
    rw [nav_found idx hb]
    by_cases hcond : idx < 0 ∨ ((b.history.getD []).length : Int) ≤ idx
    · rw [if_pos hcond]
      exact hs
    · rw [if_neg hcond]
      intro x hx
      rcases mem_update_unique _ hu hb hx with hmem | rfl
      · exact hs x hmem
      · apply branchInv_of_bounds
        · rw [effIndex_assign_some _ _ _ rfl]
          omega
        · rw [effIndex_assign_some _ _ _ rfl, histOf_assign_none _ _ rfl]
          unfold histOf
          omega

theorem storeInv_destroy (s : Store) (hs : StoreInv s) (bid : String) :
    StoreInv (destroy s bid).2 :=
  fun x hx => hs x (mem_destroy hx)

theorem storeInv_destroyList (s : Store) (hs : StoreInv s) (l : List Branch) :
    StoreInv (destroyList s l) :=
  fun x hx => hs x (mem_destroyList hx)

/-- C1 (amended): starting from any store whose branches satisfy the
cursor invariant `historyIndex ∈ [-1, history.length - 1]` (missing fields
read as the accessors do), the invariant still holds for every branch
after `create`, `ensureRoot`, `addToHistory`, `navigateToHistoryIndex`,
`destroy`, `destroyWithChildren`, and after any `update` whose partial
touches neither `history` nor `historyIndex`; an arbitrary `update` can
break it (see the counterexample). -/
theorem historyIndex_bounds_preserved (s : Store) (hs : StoreInv s)
    (hu : UniqueIds s) :
    (∀ (bid : String) (now : Nat) (tid : Option Int) (pid : Option String)
       (url title : String), StoreInv (create bid now tid pid url title s).2) ∧
    (∀ (tid : Option Int) (now : Nat), StoreInv (ensureRoot s tid now)) ∧
    (∀ (bid url title : String) (bc : Bool) (now : Nat),
       StoreInv (addToHistory s bid url title bc now).2) ∧
    (∀ (bid : String) (idx : Int),
       StoreInv (navigateToHistoryIndex s bid idx).2) ∧
    (∀ bid : String, StoreInv (destroy s bid).2) ∧
    (∀ (bid : String) (fuel : Nat) (r : Bool × Store),
       destroyWithChildren s bid fuel = some r → StoreInv r.2) ∧
    (∀ (bid : String) (d : UpdateData), d.history = none → d.historyIndex = none →
       StoreInv (update s bid d).2) := by
  refine ⟨fun bid now tid pid url title => storeInv_create s hs bid now tid pid url title,
    fun tid now => storeInv_ensureRoot s hs tid now,
    fun bid url title bc now => storeInv_addToHistory s hs hu bid url title bc now,
    fun bid idx => storeInv_nav s hs hu bid idx,
    fun bid => storeInv_destroy s hs bid,
    ?_,
    fun bid d h1 h2 => storeInv_update_noHist s hs bid d h1 h2⟩
  intro bid fuel r hr
  unfold destroyWithChildren at hr
  cases hds : getDescendantsF s bid fuel with
  | none => rw [hds] at hr; cases hr
  | some ds =>
    rw [hds] at hr
    simp only [Option.some.injEq] at hr
    subst hr
    exact storeInv_destroy _ (storeInv_destroyList s hs _) _

/-- C1 counterexample: a store created with an empty branch (history `[]`,
cursor `-1`) and then hit by `update(id, {historyIndex: 5})` — one of the
operations the claim quantifies over — ends with a branch whose cursor `5`
is far outside `[-1, -1]`. -/
theorem historyIndex_bounds_update_break :
    ¬ StoreInv (update (create "b1" 0 none none "" "" []).2 "b1"
        { historyIndex := some 5 }).2 := by
  decide

/-- C1 witness: the amended preservation statement applied to the concrete
two-branch store `[ROOT, child]`, both hypotheses checked by evaluation. -/
theorem historyIndex_bounds_preserved_inst :
    (∀ (bid : String) (now : Nat) (tid : Option Int) (pid : Option String)
       (url title : String),
       StoreInv (create bid now tid pid url title [wRoot, wChild]).2) ∧
    (∀ (tid : Option Int) (now : Nat), StoreInv (ensureRoot [wRoot, wChild] tid now)) ∧
    (∀ (bid url title : String) (bc : Bool) (now : Nat),
       StoreInv (addToHistory [wRoot, wChild] bid url title bc now).2) ∧
    (∀ (bid : String) (idx : Int),
       StoreInv (navigateToHistoryIndex [wRoot, wChild] bid idx).2) ∧
    (∀ bid : String, StoreInv (destroy [wRoot, wChild] bid).2) ∧
    (∀ (bid : String) (fuel : Nat) (r : Bool × Store),
       destroyWithChildren [wRoot, wChild] bid fuel = some r → StoreInv r.2) ∧
    (∀ (bid : String) (d : UpdateData), d.history = none → d.historyIndex = none →
       StoreInv (update [wRoot, wChild] bid d).2) :=
  historyIndex_bounds_preserved [wRoot, wChild] (by decide) (by decide)

/-! ### C4 -/

theorem countP_map_pointwise (s : Store) (p : Branch → Bool) (f : Branch → Branch)
    (h : ∀ b ∈ s, p (f b) = p b) : (s.map f).countP p = s.countP p := by
  induction s with
  | nil => rfl
  | cons a t ih =>
    rw [List.map_cons, List.countP_cons, List.countP_cons,
      h a (List.mem_cons_self a t), ih (fun b hb => h b (List.mem_cons_of_mem a hb))]

theorem countP_filter_dropFalse (s : Store) (p q : Branch → Bool)
    (h : ∀ x ∈ s, q x = false → p x = false) :
    (s.filter q).countP p = s.countP p := by
  induction s with
  | nil => rfl
  | cons a t ih =>
    rw [List.filter_cons]
    have iht := ih (fun x hx => h x (List.mem_cons_of_mem a hx))
    cases hq : q a
    · rw [if_neg (by simp), List.countP_cons, h a (List.mem_cons_self a t) hq, iht]
      simp
    · rw [if_pos (by simp), List.countP_cons, List.countP_cons, iht]

theorem parentId_assign_none (b : Branch) (d : UpdateData)
    (hd : d.parentId = none) : (assignData b d).parentId = b.parentId := by
  simp [assignData, hd]

theorem rootInv_update (s : Store) (hr : RootInv s) (w : String) (d : UpdateData)
    (hd : d.parentId = none) : RootInv (update s w d).2 := by
  unfold update
  cases h : lookup s w with
  | none => exact hr
  | some b =>
    constructor
    · rw [countP_map_pointwise]
      · exact hr.1
      · intro x _
        by_cases hx : x.id == w
        · rw [if_pos hx, parentId_assign_none x d hd]
        · rw [if_neg hx]
    · intro x hx hxp
      rcases List.mem_map.mp hx with ⟨a, ha, rfl⟩
      by_cases hw : a.id == w
      · rw [if_pos hw] at hxp ⊢
        rw [parentId_assign_none a d hd] at hxp
        rw [assignData_id]
        exact hr.2 a ha hxp
      · rw [if_neg hw] at hxp ⊢
        exact hr.2 a ha hxp

theorem rootInv_destroy (s : Store) (hr : RootInv s) (bid : String) :
    RootInv (destroy s bid).2 := by
  unfold destroy
  cases h : lookup s bid with
  | none => exact hr
  | some b =>
    by_cases hroot : bid = ROOT_BRANCH_ID
    · rw [if_pos hroot]
      exact hr
    · rw [if_neg hroot]
      constructor
      · rw [countP_filter_dropFalse]
        · exact hr.1
        · intro x hx hq
          have hxid : x.id = bid := by
            cases hxb : (x.id == bid) <;> simp_all
          by_cases hp : x.parentId = none
          · exact absurd (hxid ▸ hr.2 x hx hp) hroot
          · cases hxo : x.parentId with
            | none => exact absurd hxo hp
            | some v => simp [hxo]
      · intro x hx hxp
        exact hr.2 x (List.mem_of_mem_filter hx) hxp

theorem rootInv_create (s : Store) (hr : RootInv s) (bid : String) (now : Nat)
    (tid : Option Int) (p url title : String) (hp : p ≠ "")
    (hbid : bid ≠ ROOT_BRANCH_ID) :
    RootInv (create bid now tid (some p) url title s).2 := by
  simp only [create, if_neg hp]
  set nb : Branch :=
    { id := bid, tabId := tid, parentId := some p, url := url, title := title,
      history := some (if url ≠ "" then [⟨url, title, now⟩] else []),
      historyIndex := some (if 0 < (if url ≠ "" then
        [(⟨url, title, now⟩ : Entry)] else []).length then 0 else -1),
      createdAt := now, lastActiveAt := now, state := "awake", isRoot := false }
    with hnb
  unfold insertB
  by_cases hany : s.any (fun b => b.id == nb.id)
  · rw [if_pos hany]
    constructor
    · rw [countP_map_pointwise]
      · exact hr.1
      · intro x hx
        by_cases hxb : x.id == nb.id
        · rw [if_pos hxb]
          have hxid : x.id = bid := by simpa [hnb] using hxb
          by_cases hxp : x.parentId = none
          · exact absurd (hxid ▸ hr.2 x hx hxp) hbid
          · cases hxo : x.parentId with
            | none => exact absurd hxo hxp
            | some v => simp [hnb, hxo]
        · rw [if_neg hxb]
    · intro x hx hxp
      rcases List.mem_map.mp hx with ⟨a, ha, rfl⟩
      by_cases hab : a.id == nb.id
      · rw [if_pos hab] at hxp
        simp [hnb] at hxp
      · rw [if_neg hab] at hxp ⊢
        exact hr.2 a ha hxp
  · rw [if_neg hany]
    constructor
    · rw [List.countP_append, List.countP_singleton]
      have : (nb.parentId.isNone) = false := by simp [hnb]
      rw [this]
      simpa using hr.1
    · intro x hx hxp
      rcases List.mem_append.mp hx with hmem | hmem
      · exact hr.2 x hmem hxp
      · have : x = nb := by simpa using hmem
        rw [this] at hxp
        simp [hnb] at hxp

theorem rootInv_ensureRoot_pres (s : Store) (hr : RootInv s) (tid : Option Int)
    (now : Nat) : RootInv (ensureRoot s tid now) := by
  cases h : lookup s ROOT_BRANCH_ID with
  | some r =>
    rw [ensureRoot_found tid now h]
    split
    · exact rootInv_update s hr ROOT_BRANCH_ID { tabId := tid } rfl
    · exact hr
  | none =>
    exfalso
    have hpos : 0 < s.countP (fun b => b.parentId.isNone) := by
      rw [hr.1]
      norm_num
    rcases List.countP_pos_iff.mp hpos with ⟨x, hx, hxp⟩
    have hxroot : x.id = ROOT_BRANCH_ID :=
      hr.2 x hx (Option.isNone_iff_eq_none.mp hxp)
    have := List.find?_eq_none.mp h x hx
    simp [hxroot] at this

theorem rootInv_ensureRoot_init (s : Store) (tid : Option Int) (now : Nat)
    (hnone : lookup s ROOT_BRANCH_ID = none)
    (hall : ∀ b ∈ s, b.parentId ≠ none) :
    RootInv (ensureRoot s tid now) := by
  rw [ensureRoot_missing tid now hnone, insertB_fresh hnone]
  constructor
  · rw [List.countP_append, List.countP_singleton]
    have h0 : s.countP (fun b => b.parentId.isNone) = 0 := by
      rw [List.countP_eq_zero]
      intro a ha
      simp [Option.isNone_iff_eq_none]
      exact hall a ha
    rw [h0]
    rfl
  · intro x hx hxp
    rcases List.mem_append.mp hx with hmem | hmem
    · exact absurd hxp (hall x hmem)
    · have : x = rootRecord tid now := by simpa using hmem
      rw [this]
      rfl

/-- C4 (amended): starting from a store with no null-parent branch and no
ROOT (e.g. an empty one), `ensureRoot` establishes that exactly one branch
has a null `parentId`, namely ROOT; and this stays true under further
`ensureRoot` calls, under every `create` that passes a non-null, non-empty
parent id and a fresh non-ROOT branch id, under every `update` whose
partial does not set `parentId`, and under every `destroy`.  `create` with
a null parent — which the code permits — breaks it (see the
counterexample). -/
theorem single_root_preserved :
    (∀ (s : Store) (tid : Option Int) (now : Nat),
       lookup s ROOT_BRANCH_ID = none → (∀ b ∈ s, b.parentId ≠ none) →
       RootInv (ensureRoot s tid now)) ∧
    (∀ (s : Store) (tid : Option Int) (now : Nat),
       RootInv s → RootInv (ensureRoot s tid now)) ∧
    (∀ (s : Store) (bid : String) (now : Nat) (tid : Option Int)
       (p url title : String), RootInv s → p ≠ "" → bid ≠ ROOT_BRANCH_ID →
       RootInv (create bid now tid (some p) url title s).2) ∧
    (∀ (s : Store) (bid : String) (d : UpdateData),
       RootInv s → d.parentId = none → RootInv (update s bid d).2) ∧
    (∀ (s : Store) (bid : String), RootInv s → RootInv (destroy s bid).2) :=
  ⟨fun s tid now hnone hall => rootInv_ensureRoot_init s tid now hnone hall,
   fun s tid now hr => rootInv_ensureRoot_pres s hr tid now,
   fun s bid now tid p url title hr hp hbid =>
     rootInv_create s hr bid now tid p url title hp hbid,
   fun s bid d hr hd => rootInv_update s hr bid d hd,
   fun s bid hr => rootInv_destroy s hr bid⟩

/-- C4 counterexample: after `ensureRoot` on an empty store, one further
`create` with a null parent — an operation the claim quantifies over —
leaves two branches with `parentId == null`, so "exactly one branch has
parentId == null" fails. -/
theorem single_root_create_null_break :
    ((create "br_x" 1 (some 2) none "" "" (ensureRoot [] (some 1) 0)).2.countP
      (fun b => b.parentId.isNone)) = 2 ∧
    ¬ RootInv (create "br_x" 1 (some 2) none "" "" (ensureRoot [] (some 1) 0)).2 := by
  constructor
  · rfl
  · decide

/-- C4 witness: the amended statement evaluated at concrete inputs — the
establishment conjunct on the empty store, the preservation conjuncts on
the concrete rooted store `[ROOT, child]`. -/
theorem single_root_preserved_inst :
    RootInv (ensureRoot [] (some 1) 0) ∧
    RootInv (ensureRoot [wRoot, wChild] (some 9) 3) ∧
    RootInv (create "br_new" 4 (some 9) (some ROOT_BRANCH_ID) "u" "t"
      [wRoot, wChild]).2 ∧
    RootInv (update [wRoot, wChild] "br_c1" { title := some "T" }).2 ∧
    RootInv (destroy [wRoot, wChild] "br_c1").2 :=
  ⟨single_root_preserved.1 [] (some 1) 0 rfl (by decide),
   single_root_preserved.2.1 [wRoot, wChild] (some 9) 3 (by decide),
   single_root_preserved.2.2.1 [wRoot, wChild] "br_new" 4 (some 9)
     ROOT_BRANCH_ID "u" "t" (by decide) (by decide) (by decide),
   single_root_preserved.2.2.2.1 [wRoot, wChild] "br_c1"
     { title := some "T" } (by decide) rfl,
   single_root_preserved.2.2.2.2 [wRoot, wChild] "br_c1" (by decide)⟩

/-! ### C5 -/

theorem handleDragEnd_some (s : Store) (dragged : String) (target : Option String)
    (fuel : Nat) :
    handleDragEnd s (some dragged) target fuel =
      (if dragged = "" then some s
       else if dragged = ROOT_BRANCH_ID then some s
       else if dragged = effParentOfTarget target then some s
       else
         match isDescendant s dragged (effParentOfTarget target) fuel with
         | none => none
         | some true => some s
         | some false => (reparent s dragged target fuel).map Prod.snd) := rfl

theorem reparent_eq (s : Store) (draggedId : String) (targetParentId : Option String)
    (fuel : Nat) :
    reparent s draggedId targetParentId fuel =
      (if draggedId = ROOT_BRANCH_ID ∨ targetParentId.getD ROOT_BRANCH_ID = draggedId
       then some (false, s)
       else
         match isDescendant s draggedId (targetParentId.getD ROOT_BRANCH_ID) fuel with
         | none => none
         | some true => some (false, s)
         | some false =>
           some (true, (update s draggedId
             { parentId := some (some (targetParentId.getD ROOT_BRANCH_ID)) }).2)) := rfl

/-- C5: whenever the dragged branch is ROOT, or the effective target parent
(null meaning ROOT) equals the dragged branch, or the effective target
parent is one of its descendants, `handleDragEnd` leaves the store exactly
as it was (the `isValid` chain fails closed and `reparent` is not invoked);
and the modelled `reparent(ROOT, target)` itself reports failure with no
mutation, so the ROOT parentId stays null. -/
theorem dragEnd_invalid_no_mutation (s : Store) (dragged : String)
    (target : Option String) (fuel : Nat)
    (h : dragged = ROOT_BRANCH_ID ∨ effParentOfTarget target = dragged ∨
         isDescendant s dragged (effParentOfTarget target) fuel = some true) :
    handleDragEnd s (some dragged) target fuel = some s ∧
    (dragged = ROOT_BRANCH_ID → reparent s dragged target fuel = some (false, s)) := by
  constructor
  · rw [handleDragEnd_some]
    by_cases h0 : dragged = ""
    · rw [if_pos h0]
    · rw [if_neg h0]
      by_cases h1 : dragged = ROOT_BRANCH_ID
      · rw [if_pos h1]
      · rw [if_neg h1]
        by_cases h2 : dragged = effParentOfTarget target
        · rw [if_pos h2]
        · rw [if_neg h2]
          have h3 : isDescendant s dragged (effParentOfTarget target) fuel =
              some true := by
            rcases h with h | h | h
            · exact absurd h h1
            · exact absurd h.symm h2
            · exact h
          rw [h3]
  · intro h1
    rw [reparent_eq, if_pos (Or.inl h1)]

/-- C5 witness: dragging ROOT onto its own child on the concrete store
`[ROOT, child]` is rejected with the store untouched, and the modelled
reparent of ROOT fails. -/
theorem dragEnd_invalid_no_mutation_inst :
    handleDragEnd [wRoot, wChild] (some ROOT_BRANCH_ID) (some "br_c1") 3 =
      some [wRoot, wChild] ∧
    (ROOT_BRANCH_ID = ROOT_BRANCH_ID →
      reparent [wRoot, wChild] ROOT_BRANCH_ID (some "br_c1") 3 =
        some (false, [wRoot, wChild])) :=
  dragEnd_invalid_no_mutation [wRoot, wChild] ROOT_BRANCH_ID (some "br_c1") 3
    (Or.inl rfl)

/-! ### C7 -/

theorem tabAdded_noBranchId (s : Store) (tabId : Int) (pb : Option String)
    (url title : String) (live : List Int) (newId : String) (now : Nat) :
    tabAdded s tabId none pb url title live newId now =
      (match lookup s ROOT_BRANCH_ID with
       | none => ensureRoot s (some tabId) now
       | some root =>
         if rootTabLive root live = false then
           (update s ROOT_BRANCH_ID { tabId := some tabId }).2
         else
           (create newId now (some tabId) (some (effParentOfTarget pb))
             url title s).2) := rfl

theorem assignData_tabId (b : Branch) (t : Int) :
    assignData b { tabId := some t } = { b with tabId := some t } := rfl

theorem effParentOfTarget_ne_empty (x : Option String) :
    effParentOfTarget x ≠ "" := by
  cases x with
  | none =>
    show ROOT_BRANCH_ID ≠ ""
    unfold ROOT_BRANCH_ID
    decide
  | some p =>
    show (if p = "" then ROOT_BRANCH_ID else p) ≠ ""
    by_cases hp : p = ""
    · rw [if_pos hp]
      unfold ROOT_BRANCH_ID
      decide
    · rw [if_neg hp]
      exact hp

/-- C7: for a tab-added event whose tab data carries no branchId —
(1) with no ROOT in the store, the effect of the handler is exactly
`ensureRoot`, which installs the null-parent ROOT record carrying this
id of this tab, and adds exactly one branch;
(2) with a ROOT whose tabId is not a live tab, the handler only reassigns
the ROOT tabId to the new tab — the store keeps its size, no branch minted;
(3) with a ROOT whose tab is live, the handler creates a child branch
whose parent is the supplied parentBranchId if truthy and ROOT otherwise,
and which carries the id of the new tab. -/
theorem tabAdded_policy (s : Store) (tabId : Int) (pb : Option String)
    (url title : String) (live : List Int) (newId : String) (now : Nat) :
    (lookup s ROOT_BRANCH_ID = none →
      tabAdded s tabId none pb url title live newId now =
        ensureRoot s (some tabId) now ∧
      lookup (tabAdded s tabId none pb url title live newId now) ROOT_BRANCH_ID =
        some (rootRecord (some tabId) now) ∧
      (tabAdded s tabId none pb url title live newId now).length = s.length + 1) ∧
    (∀ root, lookup s ROOT_BRANCH_ID = some root → rootTabLive root live = false →
      tabAdded s tabId none pb url title live newId now =
        (update s ROOT_BRANCH_ID { tabId := some tabId }).2 ∧
      lookup (tabAdded s tabId none pb url title live newId now) ROOT_BRANCH_ID =
        some { root with tabId := some tabId } ∧
      (tabAdded s tabId none pb url title live newId now).length = s.length) ∧
    (∀ root, lookup s ROOT_BRANCH_ID = some root → rootTabLive root live = true →
      tabAdded s tabId none pb url title live newId now =
        (create newId now (some tabId) (some (effParentOfTarget pb)) url title s).2 ∧
      (lookup s newId = none →
        ∃ nb, lookup (tabAdded s tabId none pb url title live newId now) newId =
            some nb ∧
          nb.parentId = some (effParentOfTarget pb) ∧ nb.tabId = some tabId)) := by
  refine ⟨?_, ?_, ?_⟩
  · intro h
    have heq : tabAdded s tabId none pb url title live newId now =
        ensureRoot s (some tabId) now := by
      rw [tabAdded_noBranchId, h]
    refine ⟨heq, ?_, ?_⟩
    · rw [heq, ensureRoot_missing (some tabId) now h]
      exact lookup_insertB_fresh_self h
    · rw [heq, ensureRoot_missing (some tabId) now h, insertB_fresh h]
      simp
  · intro root hroot hlive
    have heq : tabAdded s tabId none pb url title live newId now =
        (update s ROOT_BRANCH_ID { tabId := some tabId }).2 := by
      rw [tabAdded_noBranchId, hroot]
      simp [hlive]
    refine ⟨heq, ?_, ?_⟩
    · rw [heq, lookup_update_self _ hroot, assignData_tabId]
    · rw [heq, update_found _ hroot]
      simp
  · intro root hroot hlive
    have heq : tabAdded s tabId none pb url title live newId now =
        (create newId now (some tabId) (some (effParentOfTarget pb)) url title s).2 := by
      rw [tabAdded_noBranchId, hroot]
      simp [hlive]
    refine ⟨heq, ?_⟩
    intro hfresh
    rw [heq]
    simp only [create]
    refine ⟨_, lookup_insertB_fresh_self hfresh, ?_, rfl⟩
    simp only
    rw [if_neg (effParentOfTarget_ne_empty pb)]

/-- C7 witness: the three cases evaluated concretely — an empty store
(tab becomes ROOT), the rooted store with no live ROOT tab (tabId
reassigned), and the rooted store with a live ROOT tab and a supplied
parentBranchId (child created under it). -/
theorem tabAdded_policy_inst :
    (tabAdded [] 5 none none "u" "t" [] "br_n" 7 = ensureRoot [] (some 5) 7 ∧
     lookup (tabAdded [] 5 none none "u" "t" [] "br_n" 7) ROOT_BRANCH_ID =
       some (rootRecord (some 5) 7) ∧
     (tabAdded [] 5 none none "u" "t" [] "br_n" 7).length = ([] : Store).length + 1) ∧
    (tabAdded [wRoot, wChild] 5 none none "u" "t" [] "br_n" 7 =
       (update [wRoot, wChild] ROOT_BRANCH_ID { tabId := some 5 }).2 ∧
     lookup (tabAdded [wRoot, wChild] 5 none none "u" "t" [] "br_n" 7)
       ROOT_BRANCH_ID = some { wRoot with tabId := some 5 } ∧
     (tabAdded [wRoot, wChild] 5 none none "u" "t" [] "br_n" 7).length =
       ([wRoot, wChild] : Store).length) ∧
    (tabAdded [wRoot, wChild] 5 none (some "br_c1") "u" "t" [1] "br_n" 7 =
       (create "br_n" 7 (some 5) (some (effParentOfTarget (some "br_c1")))
         "u" "t" [wRoot, wChild]).2 ∧
     (lookup [wRoot, wChild] "br_n" = none →
       ∃ nb, lookup (tabAdded [wRoot, wChild] 5 none (some "br_c1") "u" "t" [1]
           "br_n" 7) "br_n" = some nb ∧
         nb.parentId = some (effParentOfTarget (some "br_c1")) ∧
         nb.tabId = some 5)) :=
  ⟨(tabAdded_policy [] 5 none "u" "t" [] "br_n" 7).1 rfl,
   (tabAdded_policy [wRoot, wChild] 5 none "u" "t" [] "br_n" 7).2.1 wRoot rfl rfl,
   (tabAdded_policy [wRoot, wChild] 5 (some "br_c1") "u" "t" [1] "br_n" 7).2.2
     wRoot rfl rfl⟩

end BBrowser
